import Mathlib

/-!
Shallow embedding of the AppSafeguard crawler + detection engine
(src/server/utils/scan-utils.ts) and proofs of the specification claims.

External effects are modelled as oracle parameters:
  - the network (axios.get) as a function from a URL string to either a
    response body or an error message,
  - the HTML anchor extraction (cheerio `a[href]`) as a function from a body
    to the list of href attribute values,
  - the built-in vulnerability detector as a function from (url, body) to a
    finding list,
  - the JS regex engine as a compilation function from a pattern to either a
    matcher on strings or a compile failure.
The WHATWG URL parsing used by the scanner (new URL(...), .protocol, .host,
.href) is modelled concretely below, faithful on the scheme://host/rest
shapes the scanner manipulates.
-/

/-! ## URL model (new URL, .protocol // .host, .href, relative resolution) -/

/-- A parsed hierarchical URL: scheme, host (including any port), and the
remainder (path + query + fragment). -/
structure URLRec where
  scheme : String
  host : String
  rest : String
deriving Repr, DecidableEq

/-- Serialization matching the WHATWG `href` property: an empty path is
rendered as a single slash. -/
def URLRec.href (u : URLRec) : String :=
  u.scheme ++ "://" ++ u.host ++ (if u.rest = "" then "/" else u.rest)

/-- Split a character list at the first colon: scheme characters before it,
remainder after it. Fails when no colon occurs. -/
def schemeSplit : List Char → Option (List Char × List Char)
  | [] => none
  | c :: cs =>
    if c = ':' then some ([], cs)
    else
      match schemeSplit cs with
      | some (s, r) => some (c :: s, r)
      | none => none

/-- Split a character list into the host part (up to the first path, query or
fragment delimiter) and the remainder. -/
def hostSpan : List Char → List Char × List Char
  | [] => ([], [])
  | c :: cs =>
    if c = '/' ∨ c = '?' ∨ c = '#' then ([], c :: cs)
    else
      let (h, r) := hostSpan cs
      (c :: h, r)

/-- Parse an absolute hierarchical URL of the shape scheme://host/rest, the
shape `new URL(options.url)` must yield for the scanner to obtain a protocol
and host. Returns none when the string has no alphabetic scheme followed by
`://` and a nonempty host (modelling the constructor throw). -/
def parseURL (s : String) : Option URLRec :=
  match schemeSplit s.data with
  | none => none
  | some (sch, rest) =>
    if sch = [] ∨ ¬ sch.all Char.isAlpha then none
    else
      match rest with
      | '/' :: '/' :: hostRest =>
        let (h, r) := hostSpan hostRest
        if h = [] then none
        else some ⟨String.mk sch, String.mk h, String.mk r⟩
      | _ => none

/-- The characters of a path up to and including its last slash; empty when
the path has no slash. -/
def upToLastSlash (cs : List Char) : List Char :=
  (cs.reverse.dropWhile (fun c => ¬ c = '/')).reverse

/-- String prefix test, modelling JS String.prototype.startsWith. -/
def strStartsWith (s p : String) : Bool :=
  p.data.isPrefixOf s.data

/-- Resolve an href value against a base URL string, modelling
`new URL(link, base).href`: a link with an alphabetic scheme is absolute
(hierarchical when followed by //, otherwise opaque and kept verbatim);
otherwise the link is resolved against the base as protocol-relative,
root-relative or path-relative. Returns none when resolution fails
(modelling the caught constructor throw). -/
def resolveHref (link : String) (base : String) : Option String :=
  match schemeSplit link.data with
  | some (sch, rest) =>
    if ¬ sch = [] ∧ sch.all Char.isAlpha then
      match rest with
      | '/' :: '/' :: hostRest =>
        let (h, r) := hostSpan hostRest
        if h = [] then none
        else some (URLRec.href ⟨String.mk sch, String.mk h, String.mk r⟩)
      | _ => some link
    else
      match parseURL base with
      | none => none
      | some b =>
        if strStartsWith link "//" then
          let (h, r) := hostSpan (link.data.drop 2)
          if h = [] then none
          else some (URLRec.href ⟨b.scheme, String.mk h, String.mk r⟩)
        else if strStartsWith link "/" then
          some (URLRec.href ⟨b.scheme, b.host, link⟩)
        else
          some (URLRec.href ⟨b.scheme, b.host,
            String.mk (upToLastSlash b.rest.data) ++ link⟩)
  | none =>
    match parseURL base with
    | none => none
    | some b =>
      if strStartsWith link "//" then
        let (h, r) := hostSpan (link.data.drop 2)
        if h = [] then none
        else some (URLRec.href ⟨b.scheme, String.mk h, String.mk r⟩)
      else if strStartsWith link "/" then
        some (URLRec.href ⟨b.scheme, b.host, link⟩)
      else
        some (URLRec.href ⟨b.scheme, b.host,
          String.mk (upToLastSlash b.rest.data) ++ link⟩)

/-! ## Data model -/

/-- Structured details attached to a finding: either a fetch error message or
a custom-rule match record. -/
inductive Details where
  | error (msg : String)
  | ruleMatch (ruleId : Nat) (matched : Bool)
deriving Repr, DecidableEq

/-- A finding (InsertVulnerability in the surrounding system). -/
structure Finding where
  scanId : Nat
  name : String
  description : String
  url : String
  severity : String
  category : String
  details : Details
  status : String
deriving Repr, DecidableEq

/-- A user-supplied custom rule. -/
structure CustomRule where
  id : Nat
  name : String
  description : String
  category : String
  pattern : String
  severity : String
  enabled : Bool
deriving Repr, DecidableEq

/-- The scan options (ScanOptions), with the optional customRules list
defaulted to empty as the constructor does. -/
structure ScanOptions where
  url : String
  scanLevel : String
  crawlLimit : Int
  useAuthentication : Bool
  includeCustomRules : Bool
  customRules : List CustomRule
deriving Repr, DecidableEq

/-- The scan summary statistics. -/
structure Summary where
  totalVulnerabilities : Nat
  highSeverity : Nat
  mediumSeverity : Nat
  lowSeverity : Nat
  securityScore : Int
deriving Repr, DecidableEq

/-- The scan result returned by Scanner.run. -/
structure ScanResult where
  scannedUrls : List String
  vulnerabilities : List Finding
  summary : Summary
deriving Repr, DecidableEq

/-- The external world the scanner runs against: network fetch (body or error
message), built-in detector, HTML anchor extraction, and regex compilation. -/
structure ScanEnv where
  net : String → Except String String
  detect : String → String → List Finding
  hrefsOf : String → List String
  compile : String → Option (String → Bool)

/-! ## Components -/

/-- The synthetic finding pushed when fetching a URL fails. -/
def accessError (u msg : String) : Finding :=
  { scanId := 0
    name := "URL Access Error"
    description := "Could not access " ++ u ++ ": " ++ msg
    url := u
    severity := "low"
    category := "Accessibility"
    details := Details.error msg
    status := "pending" }

/-- Scanner.checkCustomRules: for each rule, when enabled, compile its pattern
case-insensitively and test the page content; a compile failure (the per-rule
try/catch) skips that rule only. -/
def checkCustomRules (compile : String → Option (String → Bool))
    (rules : List CustomRule) (url content : String) : List Finding :=
  rules.foldl
    (fun acc rule =>
      if rule.enabled then
        match compile rule.pattern with
        | none => acc
        | some test =>
          if test content then
            acc ++ [{ scanId := 0
                      name := rule.name
                      description := rule.description
                      url := url
                      severity := rule.severity
                      category := rule.category
                      details := Details.ruleMatch rule.id true
                      status := "pending" }]
          else acc
      else acc)
    []

/-- One iteration of the for loop of Scanner.extractLinks: skip empty, javascript:,
mailto: and fragment links, resolve the rest against the page URL, and append
to the queue an absolute URL that starts with the base URL of the scanner and is in
neither the visited set nor the queue. -/
def linkStep (scanBase : String) (pageUrl : String) (visited : List String)
    (q : List String) (link : String) : List String :=
  if link = "" ∨ strStartsWith link "javascript:" ∨ strStartsWith link "mailto:"
      ∨ strStartsWith link "#" then q
  else
    match resolveHref link pageUrl with
    | none => q
    | some abs =>
      if strStartsWith abs scanBase ∧ ¬ abs ∈ visited ∧ ¬ abs ∈ q then
        q ++ [abs]
      else q

/-- Scanner.extractLinks: fold the per-link step over the href values
extracted from the page. -/
def extractLinks (scanBase : String) (pageUrl : String) (hrefs : List String)
    (visited : List String) (queue : List String) : List String :=
  hrefs.foldl (linkStep scanBase pageUrl visited) queue

/-- Scanner.calculateSummary: per-severity counts by exact string match, total
is the list length, and the security score is 100 minus the weighted counts,
clamped below by 0 and above by 100, in that order. -/
def calculateSummary (vulnerabilities : List Finding) : Summary :=
  let highSeverity := (vulnerabilities.filter (fun v => v.severity = "high")).length
  let mediumSeverity := (vulnerabilities.filter (fun v => v.severity = "medium")).length
  let lowSeverity := (vulnerabilities.filter (fun v => v.severity = "low")).length
  let totalVulnerabilities := vulnerabilities.length
  let securityScore : Int :=
    100 - ((highSeverity : Int) * 10 + (mediumSeverity : Int) * 5 + (lowSeverity : Int) * 2)
  let securityScore := max 0 securityScore
  let securityScore := min 100 securityScore
  { totalVulnerabilities := totalVulnerabilities
    highSeverity := highSeverity
    mediumSeverity := mediumSeverity
    lowSeverity := lowSeverity
    securityScore := securityScore }

/-- The while loop of Scanner.run: dequeue while the queue is nonempty and fewer
than maxPages URLs are visited; skip already-visited URLs; otherwise mark
visited, fetch, and on success detect, evaluate custom rules when enabled,
and (unless the scan level is quick) extract links; on failure append the
access-error finding. The visited set is modelled as an insertion-ordered
duplicate-free list. -/
def crawlLoop (env : ScanEnv) (opts : ScanOptions) (baseUrl : String)
    (maxPages : Nat) (visited : List String) (queue : List String)
    (vulns : List Finding) : List String × List Finding :=
  match queue with
  | [] => (visited, vulns)
  | u :: rest =>
    if h : visited.length < maxPages then
      if hv : u ∈ visited then
        crawlLoop env opts baseUrl maxPages visited rest vulns
      else
        match env.net u with
        | Except.ok body =>
          let vulns1 := vulns ++ env.detect u body
          let vulns2 :=
            if opts.includeCustomRules ∧ ¬ opts.customRules = [] then
              vulns1 ++ checkCustomRules env.compile opts.customRules u body
            else vulns1
          let queue1 :=
            if ¬ opts.scanLevel = "quick" then
              extractLinks baseUrl u (env.hrefsOf body) (visited ++ [u]) rest
            else rest
          crawlLoop env opts baseUrl maxPages (visited ++ [u]) queue1 vulns2
        | Except.error msg =>
          crawlLoop env opts baseUrl maxPages (visited ++ [u]) rest
            (vulns ++ [accessError u msg])
    else (visited, vulns)
termination_by (maxPages - visited.length, queue.length)
decreasing_by
  · apply Prod.Lex.right
    simp
  · apply Prod.Lex.left
    simp only [List.length_append, List.length_cons, List.length_nil]
    omega
  · apply Prod.Lex.left
    simp only [List.length_append, List.length_cons, List.length_nil]
    omega

/-- runScan / Scanner.run: parse the seed URL (an unparsable seed throws
Invalid URL format), form the base URL from its protocol and host, coerce a
nonpositive crawl limit to 1, run the crawl loop from the seed, and package
the visited list, the findings and their summary. -/
def runScan (env : ScanEnv) (opts : ScanOptions) : Except String ScanResult :=
  match parseURL opts.url with
  | none => Except.error "Invalid URL format"
  | some pu =>
    let baseUrl := pu.scheme ++ "://" ++ pu.host
    let maxPages : Nat := if opts.crawlLimit ≤ 0 then 1 else opts.crawlLimit.toNat
    let (vis, vulns) := crawlLoop env opts baseUrl maxPages [] [opts.url] []
    Except.ok
      { scannedUrls := vis
        vulnerabilities := vulns
        summary := calculateSummary vulns }

/-- Integer clamping as written in the specification. -/
def clamp (x lo hi : Int) : Int := min hi (max lo x)

/-! ## Concrete scan environments for witnesses and counterexamples -/

/-- A network where the target serves a page whose only link points at the
attacker-controlled host a.com.evil.org. -/
def evilEnv : ScanEnv :=
  { net := fun u => if u = "https://a.com" then Except.ok "page" else Except.ok "other"
    detect := fun _ _ => []
    hrefsOf := fun d => if d = "page" then ["https://a.com.evil.org/x"] else []
    compile := fun _ => none }

/-- A standard scan of https://a.com with budget 2. -/
def evilOpts : ScanOptions :=
  { url := "https://a.com"
    scanLevel := "standard"
    crawlLimit := 2
    useAuthentication := false
    includeCustomRules := false
    customRules := [] }

/-- A network where every fetch fails with the message down. -/
def downEnv : ScanEnv :=
  { net := fun _ => Except.error "down"
    detect := fun _ _ => []
    hrefsOf := fun _ => []
    compile := fun _ => none }

/-- A quick scan of https://a.com with a nonpositive crawl limit. -/
def seedOpts : ScanOptions :=
  { url := "https://a.com"
    scanLevel := "quick"
    crawlLimit := 0
    useAuthentication := false
    includeCustomRules := false
    customRules := [] }

/-- The result of scanning https://a.com through downEnv. -/
def downResult : ScanResult :=
  { scannedUrls := ["https://a.com"]
    vulnerabilities := [accessError "https://a.com" "down"]
    summary := calculateSummary [accessError "https://a.com" "down"] }

/-- A finding with the schema-permitted severity safe, outside the three
counted buckets. -/
def safeFinding : Finding :=
  { scanId := 0
    name := "S"
    description := "d"
    url := "u"
    severity := "safe"
    category := "c"
    details := Details.ruleMatch 3 true
    status := "pending" }

/-- A regex oracle failing on the pattern bad and otherwise compiling a
pattern to a prefix test. -/
def okCompile : String → Option (String → Bool) :=
  fun p => if p = "bad" then none else some (fun c => strStartsWith c p)

/-- An enabled custom rule with pattern x. -/
def ruleA : CustomRule :=
  { id := 1
    name := "R"
    description := "d"
    category := "cat"
    pattern := "x"
    severity := "high"
    enabled := true }

/-- An enabled custom rule whose pattern the regex oracle rejects. -/
def badRule : CustomRule :=
  { id := 2
    name := "B"
    description := "d"
    category := "c"
    pattern := "bad"
    severity := "low"
    enabled := true }

/-- A scan environment carrying the partially failing regex oracle. -/
def envC8 : ScanEnv :=
  { net := fun _ => Except.error "down"
    detect := fun _ _ => []
    hrefsOf := fun _ => []
    compile := okCompile }

/-! ## Link extraction lemmas -/

/-- One link step either leaves the queue unchanged or appends a single URL
that is neither visited nor already queued. -/
lemma linkStep_eq_or_concat (b p : String) (vis q : List String) (l : String) :
    linkStep b p vis q l = q ∨
      ∃ a, linkStep b p vis q l = q ++ [a] ∧ ¬ a ∈ vis ∧ ¬ a ∈ q := by
  rw [linkStep]
  split
  · exact Or.inl rfl
  · rcases hres : resolveHref l p with _ | abs
    · simp [hres]
    · simp only [hres]
      by_cases hc : strStartsWith abs b = true ∧ ¬ abs ∈ vis ∧ ¬ abs ∈ q
      · rw [if_pos hc]
        exact Or.inr ⟨abs, rfl, hc.2.1, hc.2.2⟩
      · rw [if_neg hc]
        exact Or.inl rfl

/-- Extracted links preserve queue Nodup, and every queued URL either was
already queued or is not visited. -/
lemma extractLinks_nodup_mem (b p : String) (vis : List String) :
    ∀ (hrefs : List String) (q : List String), q.Nodup →
      (extractLinks b p hrefs vis q).Nodup ∧
      ∀ x ∈ extractLinks b p hrefs vis q, x ∈ q ∨ ¬ x ∈ vis := by
  intro hrefs
  induction hrefs with
  | nil =>
    intro q hq
    exact ⟨hq, fun x hx => Or.inl (by simpa [extractLinks] using hx)⟩
  | cons l t ih =>
    intro q hq
    have hunf : extractLinks b p (l :: t) vis q
        = extractLinks b p t vis (linkStep b p vis q l) := by
      simp [extractLinks, List.foldl_cons]
    rcases linkStep_eq_or_concat b p vis q l with heq | ⟨a, heq, hav, haq⟩
    · rw [hunf, heq]
      exact ih q hq
    · have hq' : (q ++ [a]).Nodup := by
        simp only [List.nodup_append, List.nodup_cons, List.not_mem_nil,
          not_false_eq_true, List.nodup_nil, and_true, true_and]
        constructor
        · exact hq
        · intro x hx
          simp only [List.mem_singleton]
          rintro rfl
          exact haq hx
      obtain ⟨h1, h2⟩ := ih (q ++ [a]) hq'
      rw [hunf, heq]
      refine ⟨h1, fun x hx => ?_⟩
      rcases h2 x hx with hxq | hxv
      · rcases List.mem_append.mp hxq with hxq | hxa
        · exact Or.inl hxq
        · rcases List.mem_singleton.mp hxa with rfl
          exact Or.inr hav
      · exact Or.inr hxv

/-- Extracted links only ever append to the queue: previously queued URLs stay
queued. -/
lemma extractLinks_mem_mono (b p : String) (vis : List String) :
    ∀ (hrefs : List String) (q : List String) (x : String), x ∈ q →
      x ∈ extractLinks b p hrefs vis q := by
  intro hrefs
  induction hrefs with
  | nil =>
    intro q x hx
    simpa [extractLinks] using hx
  | cons l t ih =>
    intro q x hx
    have hunf : extractLinks b p (l :: t) vis q
        = extractLinks b p t vis (linkStep b p vis q l) := by
      simp [extractLinks, List.foldl_cons]
    rw [hunf]
    rcases linkStep_eq_or_concat b p vis q l with heq | ⟨a, heq, _, _⟩
    · rw [heq]; exact ih q x hx
    · rw [heq]
      exact ih _ x (List.mem_append.mpr (Or.inl hx))

/-! ## Crawl loop equation and invariant lemmas -/

/-- Empty frontier: the loop returns the current state. -/
lemma crawlLoop_nil (env : ScanEnv) (opts : ScanOptions) (b : String) (m : Nat)
    (visited : List String) (vulns : List Finding) :
    crawlLoop env opts b m visited [] vulns = (visited, vulns) := by
  simp [crawlLoop]

/-- Budget reached: the loop returns the current state without dequeuing. -/
lemma crawlLoop_stop (env : ScanEnv) (opts : ScanOptions) (b : String) (m : Nat)
    (visited : List String) (u : String) (rest : List String) (vulns : List Finding)
    (h : ¬ visited.length < m) :
    crawlLoop env opts b m visited (u :: rest) vulns = (visited, vulns) := by
  rw [crawlLoop]
  simp [h]

/-- Defensive skip: an already-visited head is dropped, leaving visited set,
findings, and hence the budget untouched. -/
lemma crawlLoop_skip (env : ScanEnv) (opts : ScanOptions) (b : String) (m : Nat)
    (visited : List String) (u : String) (rest : List String) (vulns : List Finding)
    (h : visited.length < m) (hv : u ∈ visited) :
    crawlLoop env opts b m visited (u :: rest) vulns
      = crawlLoop env opts b m visited rest vulns := by
  conv_lhs => rw [crawlLoop]
  simp [h, hv]

/-- Fetch failure: exactly one access-error finding is appended, the URL is
marked visited, no links are enqueued, and the loop continues with the
remaining frontier. -/
lemma crawlLoop_err (env : ScanEnv) (opts : ScanOptions) (b : String) (m : Nat)
    (visited : List String) (u : String) (rest : List String) (vulns : List Finding)
    (msg : String) (h : visited.length < m) (hv : ¬ u ∈ visited)
    (hnet : env.net u = Except.error msg) :
    crawlLoop env opts b m visited (u :: rest) vulns
      = crawlLoop env opts b m (visited ++ [u]) rest (vulns ++ [accessError u msg]) := by
  conv_lhs => rw [crawlLoop]
  simp [h, hv, hnet]

/-- Fetch success: detector and (when enabled) custom-rule findings are
appended, links are extracted unless the scan level is quick, and the loop
continues. -/
lemma crawlLoop_ok (env : ScanEnv) (opts : ScanOptions) (b : String) (m : Nat)
    (visited : List String) (u : String) (rest : List String) (vulns : List Finding)
    (body : String) (h : visited.length < m) (hv : ¬ u ∈ visited)
    (hnet : env.net u = Except.ok body) :
    crawlLoop env opts b m visited (u :: rest) vulns
      = crawlLoop env opts b m (visited ++ [u])
          (if ¬ opts.scanLevel = "quick" then
             extractLinks b u (env.hrefsOf body) (visited ++ [u]) rest
           else rest)
          (if opts.includeCustomRules ∧ ¬ opts.customRules = [] then
             (vulns ++ env.detect u body)
               ++ checkCustomRules env.compile opts.customRules u body
           else vulns ++ env.detect u body) := by
  conv_lhs => rw [crawlLoop]
  simp [h, hv, hnet]

/-- Under a quick scan the frontier never grows, so at most the initial
queue is ever visited. -/
lemma crawlLoop_quick_le (env : ScanEnv) (opts : ScanOptions) (b : String) (m : Nat)
    (visited queue : List String) (vulns : List Finding)
    (hq : opts.scanLevel = "quick") :
    ((crawlLoop env opts b m visited queue vulns).1).length
      ≤ visited.length + queue.length := by
  induction visited, queue, vulns using crawlLoop.induct env opts b m with
  | case1 visited vulns => simp [crawlLoop_nil]
  | case2 visited vulns u rest h hv ih =>
    rw [crawlLoop_skip env opts b m visited u rest vulns h hv]
    calc ((crawlLoop env opts b m visited rest vulns).1).length
        ≤ visited.length + rest.length := ih
      _ ≤ visited.length + (u :: rest).length := by simp
  | case3 visited vulns u rest h hv body hnet vulns1 vulns2 queue1 ih =>
    unfold queue1 vulns2 vulns1 at ih
    simp only [hq, not_true_eq_false, dite_eq_ite, if_false, ite_false] at ih
    rw [crawlLoop_ok env opts b m visited u rest vulns body h hv hnet]
    simp only [hq, not_true_eq_false, if_false, ite_false]
    calc ((crawlLoop env opts b m (visited ++ [u]) rest _).1).length
        ≤ (visited ++ [u]).length + rest.length := ih
      _ = visited.length + (u :: rest).length := by simp; omega
  | case4 visited vulns u rest h hv msg hnet ih =>
    rw [crawlLoop_err env opts b m visited u rest vulns msg h hv hnet]
    calc ((crawlLoop env opts b m (visited ++ [u]) rest _).1).length
        ≤ (visited ++ [u]).length + rest.length := ih
      _ = visited.length + (u :: rest).length := by simp; omega
  | case5 visited vulns u rest h =>
    rw [crawlLoop_stop env opts b m visited u rest vulns h]
    simp

/-- The visited list never exceeds the page budget (or its starting length if
already larger). -/
lemma crawlLoop_length_le (env : ScanEnv) (opts : ScanOptions) (b : String) (m : Nat)
    (visited queue : List String) (vulns : List Finding) :
    ((crawlLoop env opts b m visited queue vulns).1).length
      ≤ max visited.length m := by
  induction visited, queue, vulns using crawlLoop.induct env opts b m with
  | case1 visited vulns => simp [crawlLoop_nil]
  | case2 visited vulns u rest h hv ih =>
    rw [crawlLoop_skip env opts b m visited u rest vulns h hv]
    exact ih
  | case3 visited vulns u rest h hv body hnet vulns1 vulns2 queue1 ih =>
    unfold queue1 vulns2 vulns1 at ih
    rw [crawlLoop_ok env opts b m visited u rest vulns body h hv hnet]
    have hlen : (visited ++ [u]).length ≤ m := by
      simp only [List.length_append, List.length_cons, List.length_nil]
      omega
    refine le_trans ?_ (max_le (le_trans hlen (le_max_right _ _)) (le_max_right _ _))
    convert ih using 2
  | case4 visited vulns u rest h hv msg hnet ih =>
    rw [crawlLoop_err env opts b m visited u rest vulns msg h hv hnet]
    have hlen : (visited ++ [u]).length ≤ m := by
      simp only [List.length_append, List.length_cons, List.length_nil]
      omega
    exact le_trans ih (max_le (le_trans hlen (le_max_right _ _)) (le_max_right _ _))
  | case5 visited vulns u rest h =>
    rw [crawlLoop_stop env opts b m visited u rest vulns h]
    exact le_max_left _ _

/-- Visited URLs stay visited. -/
lemma crawlLoop_mem_mono (env : ScanEnv) (opts : ScanOptions) (b : String) (m : Nat)
    (visited queue : List String) (vulns : List Finding) :
    ∀ x ∈ visited, x ∈ (crawlLoop env opts b m visited queue vulns).1 := by
  induction visited, queue, vulns using crawlLoop.induct env opts b m with
  | case1 visited vulns =>
    simp [crawlLoop_nil]
  | case2 visited vulns u rest h hv ih =>
    rw [crawlLoop_skip env opts b m visited u rest vulns h hv]
    exact ih
  | case3 visited vulns u rest h hv body hnet vulns1 vulns2 queue1 ih =>
    unfold queue1 vulns2 vulns1 at ih
    rw [crawlLoop_ok env opts b m visited u rest vulns body h hv hnet]
    intro x hx
    have hx2 : x ∈ visited ++ [u] := by simp [hx]
    have := ih x hx2
    convert this using 3
  | case4 visited vulns u rest h hv msg hnet ih =>
    rw [crawlLoop_err env opts b m visited u rest vulns msg h hv hnet]
    intro x hx
    exact ih x (by simp [hx])
  | case5 visited vulns u rest h =>
    rw [crawlLoop_stop env opts b m visited u rest vulns h]
    exact fun x hx => hx

/-- The visited list stays duplicate-free when the frontier is duplicate-free
and disjoint from it. -/
lemma crawlLoop_nodup (env : ScanEnv) (opts : ScanOptions) (b : String) (m : Nat)
    (visited queue : List String) (vulns : List Finding) :
    visited.Nodup → queue.Nodup → (∀ x ∈ queue, ¬ x ∈ visited) →
    ((crawlLoop env opts b m visited queue vulns).1).Nodup := by
  induction visited, queue, vulns using crawlLoop.induct env opts b m with
  | case1 visited vulns =>
    intro h1 _ _
    simpa [crawlLoop_nil] using h1
  | case2 visited vulns u rest h hv ih =>
    intro h1 h2 h3
    exact absurd hv (h3 u (List.mem_cons_self u rest))
  | case3 visited vulns u rest h hv body hnet vulns1 vulns2 queue1 ih =>
    unfold queue1 vulns2 vulns1 at ih
    intro h1 h2 h3
    rw [crawlLoop_ok env opts b m visited u rest vulns body h hv hnet]
    have hva : (visited ++ [u]).Nodup := by
      rw [List.nodup_append]
      refine ⟨h1, List.nodup_singleton u, ?_⟩
      intro x hx
      simp only [List.mem_singleton]
      rintro rfl
      exact hv hx
    have hrn : rest.Nodup := (List.nodup_cons.mp h2).2
    have hund : u ∉ rest := (List.nodup_cons.mp h2).1
    have hrd : ∀ x ∈ rest, ¬ x ∈ visited ++ [u] := by
      intro x hx hmem
      rcases List.mem_append.mp hmem with hxv | hxu
      · exact h3 x (List.mem_cons_of_mem u hx) hxv
      · rw [List.mem_singleton] at hxu
        subst hxu
        exact hund hx
    by_cases hq : opts.scanLevel = "quick"
    · have ih2 := ih
      simp only [hq] at ih2 ⊢
      simp at ih2 ⊢
      exact ih2 hva hrn (fun x hx => by simpa using hrd x hx)
    · obtain ⟨hel1, hel2⟩ :=
        extractLinks_nodup_mem b u (visited ++ [u]) (env.hrefsOf body) rest hrn
      have held : ∀ x ∈ extractLinks b u (env.hrefsOf body) (visited ++ [u]) rest,
          ¬ x ∈ visited ++ [u] := by
        intro x hx
        rcases hel2 x hx with hxr | hxnv
        · exact hrd x hxr
        · exact hxnv
      have ih2 := ih
      simp only [hq] at ih2 ⊢
      simp [hq] at ih2 ⊢
      exact ih2 hva hel1 (fun x hx => by simpa using held x hx)
  | case4 visited vulns u rest h hv msg hnet ih =>
    intro h1 h2 h3
    rw [crawlLoop_err env opts b m visited u rest vulns msg h hv hnet]
    have hva : (visited ++ [u]).Nodup := by
      rw [List.nodup_append]
      refine ⟨h1, List.nodup_singleton u, ?_⟩
      intro x hx
      simp only [List.mem_singleton]
      rintro rfl
      exact hv hx
    have hrn : rest.Nodup := (List.nodup_cons.mp h2).2
    have hund : u ∉ rest := (List.nodup_cons.mp h2).1
    have hrd : ∀ x ∈ rest, ¬ x ∈ visited ++ [u] := by
      intro x hx hmem
      rcases List.mem_append.mp hmem with hxv | hxu
      · exact h3 x (List.mem_cons_of_mem u hx) hxv
      · rw [List.mem_singleton] at hxu
        subst hxu
        exact hund hx
    exact ih hva hrn hrd
  | case5 visited vulns u rest h =>
    intro h1 _ _
    rw [crawlLoop_stop env opts b m visited u rest vulns h]
    exact h1

/-- A not-yet-visited frontier head gets visited when budget remains. -/
lemma crawlLoop_visits_head (env : ScanEnv) (opts : ScanOptions) (b : String)
    (m : Nat) (visited : List String) (u : String) (rest : List String)
    (vulns : List Finding) (h : visited.length < m) (hv : ¬ u ∈ visited) :
    u ∈ (crawlLoop env opts b m visited (u :: rest) vulns).1 := by
  rcases hnet : env.net u with msg | body
  · rw [crawlLoop_err env opts b m visited u rest vulns msg h hv hnet]
    exact crawlLoop_mem_mono env opts b m _ _ _ u (by simp)
  · rw [crawlLoop_ok env opts b m visited u rest vulns body h hv hnet]
    exact crawlLoop_mem_mono env opts b m _ _ _ u (by simp)

/-- The coerced page budget is always at least one. -/
lemma maxPages_pos (c : Int) : 1 ≤ (if c ≤ 0 then 1 else c.toNat) := by
  by_cases hc : c ≤ 0
  · simp [hc]
  · simp [hc]
    omega

/-- An evaluation step over an empty rule list yields no findings. -/
lemma checkCustomRules_nil (compile : String → Option (String → Bool))
    (url content : String) :
    checkCustomRules compile [] url content = [] := rfl

/-- Scans that differ only in their custom-rule lists, with pointwise equal
rule evaluation, produce identical crawl results. -/
lemma crawlLoop_rules_congr (env : ScanEnv) (opts1 opts2 : ScanOptions)
    (hsl : opts1.scanLevel = opts2.scanLevel)
    (hic : opts1.includeCustomRules = opts2.includeCustomRules)
    (hcc : ∀ url content,
      checkCustomRules env.compile opts1.customRules url content
        = checkCustomRules env.compile opts2.customRules url content)
    (b : String) (m : Nat) (visited queue : List String) (vulns : List Finding) :
    crawlLoop env opts1 b m visited queue vulns
      = crawlLoop env opts2 b m visited queue vulns := by
  induction visited, queue, vulns using crawlLoop.induct env opts1 b m with
  | case1 visited vulns =>
    rw [crawlLoop_nil, crawlLoop_nil]
  | case2 visited vulns u rest h hv ih =>
    rw [crawlLoop_skip env opts1 b m visited u rest vulns h hv,
        crawlLoop_skip env opts2 b m visited u rest vulns h hv]
    exact ih
  | case3 visited vulns u rest h hv body hnet vulns1 vulns2 queue1 ih =>
    unfold queue1 vulns2 vulns1 at ih
    have hq12 : (if ¬ opts1.scanLevel = "quick" then
          extractLinks b u (env.hrefsOf body) (visited ++ [u]) rest else rest)
        = (if ¬ opts2.scanLevel = "quick" then
          extractLinks b u (env.hrefsOf body) (visited ++ [u]) rest else rest) := by
      rw [hsl]
    have hv12 : (if opts1.includeCustomRules ∧ ¬ opts1.customRules = [] then
          (vulns ++ env.detect u body)
            ++ checkCustomRules env.compile opts1.customRules u body
        else vulns ++ env.detect u body)
        = (if opts2.includeCustomRules ∧ ¬ opts2.customRules = [] then
          (vulns ++ env.detect u body)
            ++ checkCustomRules env.compile opts2.customRules u body
        else vulns ++ env.detect u body) := by
      rw [hcc u body, hic]
      by_cases h1 : opts1.customRules = []
      · by_cases h2 : opts2.customRules = []
        · simp [h1, h2]
        · have hz : checkCustomRules env.compile opts2.customRules u body = [] := by
            rw [← hcc u body, h1]
            rfl
          simp [h1, h2, hz, checkCustomRules_nil]
      · by_cases h2 : opts2.customRules = []
        · have hz : checkCustomRules env.compile opts2.customRules u body = [] := by
            rw [h2]
            rfl
          simp [h1, h2, hz, checkCustomRules_nil]
        · simp [h1, h2]
    calc crawlLoop env opts1 b m visited (u :: rest) vulns
        = crawlLoop env opts2 b m (visited ++ [u])
            (if ¬ opts1.scanLevel = "quick" then
              extractLinks b u (env.hrefsOf body) (visited ++ [u]) rest else rest)
            (if opts1.includeCustomRules ∧ ¬ opts1.customRules = [] then
              (vulns ++ env.detect u body)
                ++ checkCustomRules env.compile opts1.customRules u body
            else vulns ++ env.detect u body) := by
          rw [crawlLoop_ok env opts1 b m visited u rest vulns body h hv hnet]
          exact ih
      _ = crawlLoop env opts2 b m (visited ++ [u])
            (if ¬ opts2.scanLevel = "quick" then
              extractLinks b u (env.hrefsOf body) (visited ++ [u]) rest else rest)
            (if opts2.includeCustomRules ∧ ¬ opts2.customRules = [] then
              (vulns ++ env.detect u body)
                ++ checkCustomRules env.compile opts2.customRules u body
            else vulns ++ env.detect u body) := by
          rw [hq12, hv12]
      _ = crawlLoop env opts2 b m visited (u :: rest) vulns :=
          (crawlLoop_ok env opts2 b m visited u rest vulns body h hv hnet).symm
  | case4 visited vulns u rest h hv msg hnet ih =>
    rw [crawlLoop_err env opts1 b m visited u rest vulns msg h hv hnet,
        crawlLoop_err env opts2 b m visited u rest vulns msg h hv hnet]
    exact ih
  | case5 visited vulns u rest h =>
    rw [crawlLoop_stop env opts1 b m visited u rest vulns h,
        crawlLoop_stop env opts2 b m visited u rest vulns h]

/-- Sum of the three per-severity counts never exceeds the list length, and is
strictly below it as soon as some finding carries a severity outside the
three buckets. -/
lemma severity_count_bounds (F : List Finding) :
    ((F.filter (fun v => v.severity = "high")).length
      + (F.filter (fun v => v.severity = "medium")).length
      + (F.filter (fun v => v.severity = "low")).length ≤ F.length)
    ∧ ((∃ w ∈ F, ¬ w.severity = "high" ∧ ¬ w.severity = "medium"
          ∧ ¬ w.severity = "low") →
        (F.filter (fun v => v.severity = "high")).length
          + (F.filter (fun v => v.severity = "medium")).length
          + (F.filter (fun v => v.severity = "low")).length < F.length) := by
  induction F with
  | nil => simp
  | cons v t ih =>
    obtain ⟨ih1, ih2⟩ := ih
    by_cases h1 : v.severity = "high"
    · have hm : ¬ v.severity = "medium" := by rw [h1]; decide
      have hl : ¬ v.severity = "low" := by rw [h1]; decide
      constructor
      · simp [List.filter_cons, h1, hm, hl]
        omega
      · rintro ⟨w, hw, hwh, hwm, hwl⟩
        rcases List.mem_cons.mp hw with rfl | hwt
        · exact absurd h1 hwh
        · have := ih2 ⟨w, hwt, hwh, hwm, hwl⟩
          simp [List.filter_cons, h1, hm, hl]
          omega
    · by_cases h2 : v.severity = "medium"
      · have hl : ¬ v.severity = "low" := by rw [h2]; decide
        constructor
        · simp [List.filter_cons, h1, h2, hl]
          omega
        · rintro ⟨w, hw, hwh, hwm, hwl⟩
          rcases List.mem_cons.mp hw with rfl | hwt
          · exact absurd h2 hwm
          · have := ih2 ⟨w, hwt, hwh, hwm, hwl⟩
            simp [List.filter_cons, h1, h2, hl]
            omega
      · by_cases h3 : v.severity = "low"
        · constructor
          · simp [List.filter_cons, h1, h2, h3]
            omega
          · rintro ⟨w, hw, hwh, hwm, hwl⟩
            rcases List.mem_cons.mp hw with rfl | hwt
            · exact absurd h3 hwl
            · have := ih2 ⟨w, hwt, hwh, hwm, hwl⟩
              simp [List.filter_cons, h1, h2, h3]
              omega
        · constructor
          · simp [List.filter_cons, h1, h2, h3]
            omega
          · intro _
            simp [List.filter_cons, h1, h2, h3]
            omega

/-- Concrete evaluation of the unreachable-seed scan. -/
lemma runScan_downEnv : runScan downEnv seedOpts = Except.ok downResult := by
  simp +decide [runScan, crawlLoop, downEnv, seedOpts, downResult, parseURL,
    schemeSplit, hostSpan, accessError, calculateSummary]

/-! ## Claims, with witnesses at concrete inputs -/

/-- Claim C1, refuted on the code: the same-origin check is a string prefix
test on scheme://host, so a link to https://a.com.evil.org (whose href merely
starts with the characters of https://a.com) is enqueued and fetched even
though its host differs from the target host. -/
theorem c1_cross_origin_enqueued :
    (runScan evilEnv evilOpts).toOption.map (fun r => r.scannedUrls)
        = some ["https://a.com", "https://a.com.evil.org/x"]
    ∧ (parseURL "https://a.com").map URLRec.host = some "a.com"
    ∧ (parseURL "https://a.com.evil.org/x").map URLRec.host = some "a.com.evil.org"
    ∧ ¬ "a.com.evil.org" = "a.com" := by
  refine ⟨?_, by decide, by decide, by decide⟩
  simp +decide [runScan, crawlLoop, evilEnv, evilOpts, parseURL, schemeSplit,
    hostSpan, extractLinks, linkStep, resolveHref, checkCustomRules,
    calculateSummary, accessError, URLRec.href, upToLastSlash, strStartsWith]

/-- Claim C2: for every completed scan, the number of distinct visited URLs is
at most max(1, crawlLimit), and the seed URL is always visited, even when
crawlLimit is nonpositive (it is then treated as 1). -/
theorem c2_budget_bound (env : ScanEnv) (opts : ScanOptions) (r : ScanResult)
    (hr : runScan env opts = Except.ok r) :
    (r.scannedUrls.length : Int) ≤ max 1 opts.crawlLimit
      ∧ opts.url ∈ r.scannedUrls := by
  rcases hpu : parseURL opts.url with _ | pu
  · simp [runScan, hpu] at hr
  · simp only [runScan, hpu] at hr
    rw [Except.ok.injEq] at hr
    subst hr
    constructor
    · have hle := crawlLoop_length_le env opts (pu.scheme ++ "://" ++ pu.host)
        (if opts.crawlLimit ≤ 0 then 1 else opts.crawlLimit.toNat) [] [opts.url] []
      simp only [List.length_nil, Nat.max_eq_right (Nat.zero_le _)] at hle
      by_cases hc : opts.crawlLimit ≤ 0
      · simp only [hc, if_true, ite_true] at hle ⊢
        calc ((crawlLoop _ _ _ _ _ _ _).1.length : Int) ≤ (1 : Int) := by exact_mod_cast hle
          _ ≤ max 1 opts.crawlLimit := le_max_left _ _
      · simp only [hc, if_false, ite_false] at hle ⊢
        push_neg at hc
        calc ((crawlLoop _ _ _ _ _ _ _).1.length : Int)
            ≤ (opts.crawlLimit.toNat : Int) := by exact_mod_cast hle
          _ = opts.crawlLimit := Int.toNat_of_nonneg (le_of_lt hc)
          _ ≤ max 1 opts.crawlLimit := le_max_right _ _
    · exact crawlLoop_visits_head env opts _ _ [] opts.url [] []
        (lt_of_lt_of_le Nat.zero_lt_one (maxPages_pos opts.crawlLimit))
        (List.not_mem_nil opts.url)

/-- Witness for C2 at a concrete scan. -/
theorem c2_budget_bound_witness :
    ((downResult.scannedUrls.length : Int) ≤ max 1 seedOpts.crawlLimit)
      ∧ seedOpts.url ∈ downResult.scannedUrls :=
  c2_budget_bound downEnv seedOpts downResult runScan_downEnv

/-- Claim C3: the summary counts findings exactly, scores by the clamped
weighted formula, and is invariant under permutation of the finding list. -/
theorem c3_summary_spec (F G : List Finding) :
    (calculateSummary F).totalVulnerabilities = F.length
    ∧ (calculateSummary F).highSeverity
        = (F.filter (fun v => v.severity = "high")).length
    ∧ (calculateSummary F).mediumSeverity
        = (F.filter (fun v => v.severity = "medium")).length
    ∧ (calculateSummary F).lowSeverity
        = (F.filter (fun v => v.severity = "low")).length
    ∧ (calculateSummary F).securityScore
        = clamp (100 - (10 * ((F.filter (fun v => v.severity = "high")).length : Int)
            + 5 * ((F.filter (fun v => v.severity = "medium")).length : Int)
            + 2 * ((F.filter (fun v => v.severity = "low")).length : Int))) 0 100
    ∧ (F.Perm G → calculateSummary F = calculateSummary G) := by
  refine ⟨rfl, rfl, rfl, rfl, ?_, ?_⟩
  · simp only [calculateSummary, clamp]
    omega
  · intro hp
    simp only [calculateSummary, hp.length_eq, (hp.filter _).length_eq]

/-- Witness for C3 at concrete permuted finding lists. -/
theorem c3_summary_spec_witness :
    calculateSummary [accessError "u" "m", accessError "v" "n"]
      = calculateSummary [accessError "v" "n", accessError "u" "m"] :=
  (c3_summary_spec [accessError "u" "m", accessError "v" "n"]
    [accessError "v" "n", accessError "u" "m"]).2.2.2.2.2 (by decide)

/-- Claim C4: a failed fetch of a visited URL appends exactly one synthetic
URL Access Error finding (low severity, Accessibility category, details
carrying the message), enqueues nothing, and the loop continues; a scan whose
seed is unreachable completes normally with exactly that finding. -/
theorem c4_fetch_error (env : ScanEnv) (opts : ScanOptions) :
    (∀ b m visited u rest vulns msg, visited.length < m → ¬ u ∈ visited →
        env.net u = Except.error msg →
        crawlLoop env opts b m visited (u :: rest) vulns
          = crawlLoop env opts b m (visited ++ [u]) rest
              (vulns ++ [accessError u msg]))
    ∧ ∀ pu msg, parseURL opts.url = some pu → env.net opts.url = Except.error msg →
        runScan env opts = Except.ok
          { scannedUrls := [opts.url]
            vulnerabilities := [accessError opts.url msg]
            summary := calculateSummary [accessError opts.url msg] } := by
  constructor
  · intro b m visited u rest vulns msg h hv hnet
    exact crawlLoop_err env opts b m visited u rest vulns msg h hv hnet
  · intro pu msg hpu hnet
    simp only [runScan, hpu]
    rw [crawlLoop_err env opts (pu.scheme ++ "://" ++ pu.host)
        (if opts.crawlLimit ≤ 0 then 1 else opts.crawlLimit.toNat) [] opts.url [] [] msg
        (lt_of_lt_of_le Nat.zero_lt_one (maxPages_pos opts.crawlLimit))
        (List.not_mem_nil opts.url) hnet]
    rw [crawlLoop_nil]
    simp

/-- Witness for C4 at a concrete failing fetch. -/
theorem c4_fetch_error_witness :
    crawlLoop downEnv seedOpts "https://a.com" 1 [] ["https://a.com"] []
        = crawlLoop downEnv seedOpts "https://a.com" 1 ["https://a.com"] []
            [accessError "https://a.com" "down"]
      ∧ runScan downEnv seedOpts = Except.ok
          { scannedUrls := ["https://a.com"]
            vulnerabilities := [accessError "https://a.com" "down"]
            summary := calculateSummary [accessError "https://a.com" "down"] } := by
  constructor
  · have h := (c4_fetch_error downEnv seedOpts).1 "https://a.com" 1 []
      "https://a.com" [] [] "down" (by decide) (by decide) rfl
    simpa using h
  · exact (c4_fetch_error downEnv seedOpts).2 ⟨"https", "a.com", ""⟩ "down"
      (by decide) rfl

/-- Claim C5: a quick scan never extracts links, so only the seed URL is
visited, whatever the page budget. -/
theorem c5_quick_seed_only (env : ScanEnv) (opts : ScanOptions) (r : ScanResult)
    (hq : opts.scanLevel = "quick") (hr : runScan env opts = Except.ok r) :
    r.scannedUrls.length ≤ 1 ∧ r.scannedUrls = [opts.url] := by
  rcases hpu : parseURL opts.url with _ | pu
  · simp [runScan, hpu] at hr
  · simp only [runScan, hpu] at hr
    rw [Except.ok.injEq] at hr
    subst hr
    have hle := crawlLoop_quick_le env opts (pu.scheme ++ "://" ++ pu.host)
      (if opts.crawlLimit ≤ 0 then 1 else opts.crawlLimit.toNat) [] [opts.url] [] hq
    simp only [List.length_nil, List.length_cons, Nat.zero_add] at hle
    have hmem := crawlLoop_visits_head env opts (pu.scheme ++ "://" ++ pu.host)
      (if opts.crawlLimit ≤ 0 then 1 else opts.crawlLimit.toNat) [] opts.url [] []
      (lt_of_lt_of_le Nat.zero_lt_one (maxPages_pos opts.crawlLimit))
      (List.not_mem_nil opts.url)
    have heq : (crawlLoop env opts (pu.scheme ++ "://" ++ pu.host)
        (if opts.crawlLimit ≤ 0 then 1 else opts.crawlLimit.toNat) [] [opts.url] []).1
        = [opts.url] := by
      rcases hl : (crawlLoop env opts (pu.scheme ++ "://" ++ pu.host)
          (if opts.crawlLimit ≤ 0 then 1 else opts.crawlLimit.toNat) [] [opts.url] []).1
        with _ | ⟨a, t⟩
      · rw [hl] at hmem
        exact absurd hmem (List.not_mem_nil _)
      · rw [hl] at hmem hle
        simp only [List.length_cons] at hle
        have ht : t = [] := List.length_eq_zero.mp (by omega)
        subst ht
        simp only [List.mem_singleton] at hmem
        subst hmem
        rfl
    exact ⟨by rw [heq]; simp, heq⟩

/-- Witness for C5 at a concrete quick scan. -/
theorem c5_quick_seed_only_witness :
    downResult.scannedUrls.length ≤ 1
      ∧ downResult.scannedUrls = [seedOpts.url] :=
  c5_quick_seed_only downEnv seedOpts downResult rfl runScan_downEnv

/-- Claim C6: an enabled rule whose compiled pattern matches the page body
yields exactly one finding for that page, with name, severity and category
taken verbatim from the rule and details recording the rule id and a match
flag; over a list of pages the rule yields exactly one finding per matching
page. -/
theorem c6_rule_match (compile : String → Option (String → Bool))
    (r : CustomRule) (test : String → Bool) (url content : String)
    (he : r.enabled = true) (hc : compile r.pattern = some test) :
    (test content = true →
        checkCustomRules compile [r] url content
          = [{ scanId := 0
               name := r.name
               description := r.description
               url := url
               severity := r.severity
               category := r.category
               details := Details.ruleMatch r.id true
               status := "pending" }])
    ∧ ∀ pages : List (String × String),
        ((pages.map (fun p => checkCustomRules compile [r] p.1 p.2)).flatten).length
          = (pages.filter (fun p => test p.2)).length := by
  have hsingle : ∀ u c, checkCustomRules compile [r] u c
      = if test c = true then
          [{ scanId := 0
             name := r.name
             description := r.description
             url := u
             severity := r.severity
             category := r.category
             details := Details.ruleMatch r.id true
             status := "pending" }]
        else [] := by
    intro u c
    simp only [checkCustomRules, List.foldl_cons, List.foldl_nil, he, if_true, hc]
    by_cases ht : test c = true
    · simp [ht]
    · simp [ht]
  constructor
  · intro ht
    rw [hsingle url content, if_pos ht]
  · intro pages
    induction pages with
    | nil => simp
    | cons p t ih =>
      by_cases hp : test p.2 = true
      · simp [List.filter_cons, hsingle p.1 p.2, hp, ih]
      · simp [List.filter_cons, hsingle p.1 p.2, hp, ih]

/-- Witness for C6 at a concrete matching rule. -/
theorem c6_rule_match_witness :
    checkCustomRules okCompile [ruleA] "https://a.com" "xyz"
      = [{ scanId := 0
           name := ruleA.name
           description := ruleA.description
           url := "https://a.com"
           severity := ruleA.severity
           category := ruleA.category
           details := Details.ruleMatch ruleA.id true
           status := "pending" }] :=
  (c6_rule_match okCompile ruleA (fun c => strStartsWith c "x") "https://a.com"
    "xyz" rfl rfl).1 (by decide)

/-- Claim C7: link extraction enqueues a URL only when absent from both the
visited set and the frontier, so a duplicate-free frontier stays
duplicate-free; the visited list of a completed scan is duplicate-free; and a
defensively-skipped already-visited dequeue changes nothing and consumes no
budget slot. -/
theorem c7_enqueue_once (env : ScanEnv) (opts : ScanOptions) :
    (∀ r, runScan env opts = Except.ok r → r.scannedUrls.Nodup)
    ∧ (∀ b p hrefs vis q, List.Nodup q →
        List.Nodup (extractLinks b p hrefs vis q))
    ∧ ∀ b m visited u rest vulns, u ∈ visited →
        crawlLoop env opts b m visited (u :: rest) vulns
          = crawlLoop env opts b m visited rest vulns := by
  refine ⟨?_, ?_, ?_⟩
  · intro r hr
    rcases hpu : parseURL opts.url with _ | pu
    · simp [runScan, hpu] at hr
    · simp only [runScan, hpu] at hr
      rw [Except.ok.injEq] at hr
      subst hr
      exact crawlLoop_nodup env opts (pu.scheme ++ "://" ++ pu.host)
        (if opts.crawlLimit ≤ 0 then 1 else opts.crawlLimit.toNat) [] [opts.url] []
        List.nodup_nil (List.nodup_singleton _) (by simp)
  · intro b p hrefs vis q hq
    exact (extractLinks_nodup_mem b p vis hrefs q hq).1
  · intro b m visited u rest vulns hv
    by_cases h : visited.length < m
    · exact crawlLoop_skip env opts b m visited u rest vulns h hv
    · rw [crawlLoop_stop env opts b m visited u rest vulns h]
      cases rest with
      | nil => rw [crawlLoop_nil]
      | cons v t => rw [crawlLoop_stop env opts b m visited v t vulns h]

/-- Witness for C7 at a concrete scan and a concrete skipped dequeue. -/
theorem c7_enqueue_once_witness :
    downResult.scannedUrls.Nodup
      ∧ List.Nodup (extractLinks "https://a.com" "https://a.com"
          ["https://a.com/x"] [] ["https://a.com/y"])
      ∧ crawlLoop downEnv seedOpts "https://a.com" 5 ["u"] ["u"] []
          = crawlLoop downEnv seedOpts "https://a.com" 5 ["u"] [] [] :=
  ⟨(c7_enqueue_once downEnv seedOpts).1 downResult runScan_downEnv,
   (c7_enqueue_once downEnv seedOpts).2.1 "https://a.com" "https://a.com"
     ["https://a.com/x"] [] ["https://a.com/y"] (List.nodup_singleton _),
   (c7_enqueue_once downEnv seedOpts).2.2 "https://a.com" 5 ["u"] "u" [] []
     (List.mem_singleton_self "u")⟩

/-- Claim C8: a custom rule whose pattern fails to compile is skipped — the
rule list with it behaves exactly like the list without it, per page and for
the whole scan. -/
theorem c8_bad_pattern (env : ScanEnv) (opts : ScanOptions)
    (before after : List CustomRule) (r : CustomRule)
    (hbad : env.compile r.pattern = none) :
    (∀ url content,
        checkCustomRules env.compile (before ++ r :: after) url content
          = checkCustomRules env.compile (before ++ after) url content)
    ∧ runScan env { opts with customRules := before ++ r :: after }
        = runScan env { opts with customRules := before ++ after } := by
  have hcc : ∀ url content,
      checkCustomRules env.compile (before ++ r :: after) url content
        = checkCustomRules env.compile (before ++ after) url content := by
    intro url content
    simp only [checkCustomRules, List.foldl_append, List.foldl_cons]
    congr 1
    by_cases he : r.enabled <;> simp [he, hbad]
  refine ⟨hcc, ?_⟩
  rcases hpu : parseURL opts.url with _ | pu
  · simp [runScan, hpu]
  · simp only [runScan, hpu]
    rw [crawlLoop_rules_congr env
      { opts with customRules := before ++ r :: after }
      { opts with customRules := before ++ after } rfl rfl hcc]

/-- Witness for C8 at a concrete uncompilable rule. -/
theorem c8_bad_pattern_witness :
    (checkCustomRules envC8.compile ([ruleA] ++ badRule :: []) "u" "xcontent"
        = checkCustomRules envC8.compile ([ruleA] ++ []) "u" "xcontent")
      ∧ runScan envC8 { seedOpts with customRules := [ruleA] ++ badRule :: [] }
          = runScan envC8 { seedOpts with customRules := [ruleA] ++ [] } := by
  have h := c8_bad_pattern envC8 seedOpts [ruleA] [] badRule rfl
  exact ⟨h.1 "u" "xcontent", h.2⟩
/-- Claim C9: an unparsable seed URL makes the scan fail with the Invalid URL
format error before any fetch (the result does not depend on the network and
carries no visited URL or finding), and it is the only scan-fatal error:
any parsable seed yields a normally returned result. -/
theorem c9_invalid_target (env env2 : ScanEnv) (opts : ScanOptions) :
    (parseURL opts.url = none →
        runScan env opts = Except.error "Invalid URL format"
          ∧ runScan env opts = runScan env2 opts)
    ∧ ∀ pu, parseURL opts.url = some pu → ∃ r, runScan env opts = Except.ok r := by
  constructor
  · intro hn
    constructor
    · simp [runScan, hn]
    · simp [runScan, hn]
  · intro pu hpu
    simp only [runScan, hpu]
    exact ⟨_, rfl⟩

/-- Witness for C9 at a concrete malformed and a concrete well-formed seed. -/
theorem c9_invalid_target_witness :
    runScan downEnv { seedOpts with url := "nourl" }
        = Except.error "Invalid URL format"
      ∧ ∃ r, runScan downEnv seedOpts = Except.ok r :=
  ⟨((c9_invalid_target downEnv downEnv { seedOpts with url := "nourl" }).1
      (by decide)).1,
   (c9_invalid_target downEnv downEnv seedOpts).2 ⟨"https", "a.com", ""⟩
     (by decide)⟩

/-- Claim C10: the per-severity buckets sum to at most the total, strictly
below when some finding has a severity outside high/medium/low; such a
finding increments the total but leaves every bucket and the security score
unchanged. -/
theorem c10_offscale_severity (F : List Finding) (v : Finding) :
    ((calculateSummary F).highSeverity + (calculateSummary F).mediumSeverity
        + (calculateSummary F).lowSeverity
      ≤ (calculateSummary F).totalVulnerabilities)
    ∧ ((∃ w ∈ F, ¬ w.severity = "high" ∧ ¬ w.severity = "medium"
          ∧ ¬ w.severity = "low") →
        (calculateSummary F).highSeverity + (calculateSummary F).mediumSeverity
            + (calculateSummary F).lowSeverity
          < (calculateSummary F).totalVulnerabilities)
    ∧ (¬ v.severity = "high" → ¬ v.severity = "medium" → ¬ v.severity = "low" →
        (calculateSummary (F ++ [v])).totalVulnerabilities
            = (calculateSummary F).totalVulnerabilities + 1
          ∧ (calculateSummary (F ++ [v])).highSeverity
            = (calculateSummary F).highSeverity
          ∧ (calculateSummary (F ++ [v])).mediumSeverity
            = (calculateSummary F).mediumSeverity
          ∧ (calculateSummary (F ++ [v])).lowSeverity
            = (calculateSummary F).lowSeverity
          ∧ (calculateSummary (F ++ [v])).securityScore
            = (calculateSummary F).securityScore) := by
  obtain ⟨hb1, hb2⟩ := severity_count_bounds F
  refine ⟨hb1, hb2, ?_⟩
  intro h1 h2 h3
  refine ⟨by simp [calculateSummary], ?_, ?_, ?_, ?_⟩
  all_goals simp [calculateSummary, List.filter_append, h1, h2, h3]

/-- Witness for C10 at a concrete safe-severity finding. -/
theorem c10_offscale_severity_witness :
    ((calculateSummary [safeFinding]).highSeverity
        + (calculateSummary [safeFinding]).mediumSeverity
        + (calculateSummary [safeFinding]).lowSeverity
      < (calculateSummary [safeFinding]).totalVulnerabilities)
    ∧ (calculateSummary ([] ++ [safeFinding])).securityScore
        = (calculateSummary []).securityScore := by
  have h := c10_offscale_severity [safeFinding] safeFinding
  exact ⟨h.2.1 ⟨safeFinding, by decide, by decide, by decide, by decide⟩,
    (h.2.2 (by decide) (by decide) (by decide)).2.2.2.2⟩

